/-
Verification of the DoPilot pipeline orchestration engine against its
natural-language specification.

Shallow embedding of the repository's core:
  * `agent/rate_limiter.py` — sliding-window rate limiter (`RateLimiter`),
  * `agent/graph.py` — the stage state machine (planner, architect, coder,
    security, security fixer, final verification) and its routing,
  * `agent/tools.py` — sandboxed file persistence and the security scanner.

Wall-clock timestamps (Python floats from `time.time()`) are modelled as
rationals; the opaque LLM call, the file system and the regex engine are
modelled as explicit inputs so every embedded function is pure and
executable.
-/
import Mathlib

namespace DoPilot

/-! ## RateLimiter (`agent/rate_limiter.py`)

`RateLimiter.__init__` keeps `max_calls` and a growable list `calls` of
timestamps.  `can_proceed` prunes entries older than 60 seconds, refuses when
the pruned list has reached `max_calls`, and otherwise appends the current
time and admits. -/

structure RateLimiter where
  max_calls : ℕ
  calls : List ℚ
deriving DecidableEq

/-- The pruning step `[t for t in self.calls if current_time - t < 60]`. -/
def prune (calls : List ℚ) (now : ℚ) : List ℚ :=
  calls.filter (fun t => decide (now - t < 60))

/-- `RateLimiter.can_proceed`: returns the boolean result together with the
limiter state after the call (the Python method mutates `self.calls`). -/
def can_proceed (rl : RateLimiter) (now : ℚ) : Bool × RateLimiter :=
  let calls := prune rl.calls now
  if calls.length ≥ rl.max_calls then
    (false, { rl with calls := calls })
  else
    (true, { rl with calls := calls ++ [now] })

/-- `RateLimiter.wait_time`: seconds until the next admission, with the fixed
2-second safety buffer, floored at 0. -/
def wait_time (rl : RateLimiter) (now : ℚ) : ℚ × RateLimiter :=
  if rl.calls = [] then (0, rl)
  else
    let calls := prune rl.calls now
    if calls.length < rl.max_calls then (0, { rl with calls := calls })
    else
      let oldest_call := calls.foldr min (calls.headD 0)
      let time_since_oldest := now - oldest_call
      (max 0 ((60 - time_since_oldest) + 2), { rl with calls := calls })

/-- The timestamps of the admitted calls when `can_proceed` is checked once
per element of `ts` (each element is the value of `time.time()` at that
check), threading the limiter state through. -/
def admittedTimes (rl : RateLimiter) : List ℚ → List ℚ
  | [] => []
  | t :: ts =>
    let r := can_proceed rl t
    if r.1 then t :: admittedTimes r.2 ts else admittedTimes r.2 ts

/-- How many entries of `l` fall inside the trailing 60-second window ending
at `w`. -/
def windowCount (l : List ℚ) (w : ℚ) : ℕ :=
  (l.filter (fun t => decide (w - 60 < t ∧ t ≤ w))).length

lemma windowCount_le_length (l : List ℚ) (w : ℚ) :
    windowCount l w ≤ l.length :=
  List.length_filter_le _ _

lemma windowCount_cons (t : ℚ) (l : List ℚ) (w : ℚ) :
    windowCount (t :: l) w
      = (if w - 60 < t ∧ t ≤ w then 1 else 0) + windowCount l w := by
  simp only [windowCount, List.filter_cons]
  by_cases h : w - 60 < t ∧ t ≤ w <;> simp [h, Nat.add_comm]

lemma windowCount_append_singleton (l : List ℚ) (t w : ℚ) :
    windowCount (l ++ [t]) w
      = windowCount l w + (if w - 60 < t ∧ t ≤ w then 1 else 0) := by
  simp only [windowCount, List.filter_append, List.length_append,
    List.filter_cons, List.filter_nil]
  by_cases h : w - 60 < t ∧ t ≤ w <;> simp [h]

/-- Pruning at a check time `t ≤ w` removes nothing from the window ending at
`w`: every timestamp in that window is younger than 60 seconds at time `t`. -/
lemma windowCount_prune (l : List ℚ) (t w : ℚ) (ht : t ≤ w) :
    windowCount (prune l t) w = windowCount l w := by
  unfold windowCount prune
  rw [List.filter_filter]
  congr 1
  apply List.filter_congr
  intro a _
  by_cases hwin : w - 60 < a ∧ a ≤ w
  · have : t - a < 60 := by linarith [hwin.1]
    simp [hwin, this]
  · simp [hwin]

lemma mem_admittedTimes (rl : RateLimiter) (ts : List ℚ) :
    ∀ x ∈ admittedTimes rl ts, x ∈ ts := by
  induction ts generalizing rl with
  | nil => simp [admittedTimes]
  | cons t ts ih =>
    intro x hx
    simp only [admittedTimes] at hx
    by_cases h : (can_proceed rl t).1 <;> simp [h] at hx
    · rcases hx with rfl | hx
      · exact List.mem_cons_self _ _
      · exact List.mem_cons_of_mem _ (ih _ _ hx)
    · exact List.mem_cons_of_mem _ (ih _ _ hx)

lemma mem_prune_subset (calls : List ℚ) (now : ℚ) :
    ∀ c ∈ prune calls now, c ∈ calls := fun _ h => List.mem_of_mem_filter h

lemma prune_length_le (calls : List ℚ) (now : ℚ) :
    (prune calls now).length ≤ calls.length :=
  List.length_filter_le _ _

/-- Main sliding-window invariant, proved by induction over the remaining
check times: the admitted timestamps added in the future, plus the window
residents already recorded, never exceed the configured maximum. -/
lemma admitted_window_bound (ts : List ℚ) :
    ∀ (rl : RateLimiter) (w : ℚ),
      List.Sorted (· ≤ ·) ts →
      (∀ c ∈ rl.calls, ∀ t ∈ ts, c ≤ t) →
      rl.calls.length ≤ rl.max_calls →
      windowCount (admittedTimes rl ts) w + windowCount rl.calls w
        ≤ rl.max_calls := by
  induction ts with
  | nil =>
    intro rl w _ _ hlen
    simpa [admittedTimes, windowCount] using
      le_trans (windowCount_le_length rl.calls w) hlen
  | cons t ts ih =>
    intro rl w hsort hle hlen
    have hsort' : List.Sorted (· ≤ ·) ts := (List.sorted_cons.mp hsort).2
    have hhead : ∀ x ∈ ts, t ≤ x := (List.sorted_cons.mp hsort).1
    by_cases hw : w < t
    · -- every future check time exceeds `w`, so no future admission can land
      -- in the window; the residents alone are bounded by the list length.
      have hz : windowCount (admittedTimes rl (t :: ts)) w = 0 := by
        unfold windowCount
        rw [List.length_eq_zero, List.filter_eq_nil_iff]
        intro a ha
        have hmem := mem_admittedTimes rl (t :: ts) a ha
        have : w < a := by
          rcases List.mem_cons.mp hmem with rfl | h
          · exact hw
          · exact lt_of_lt_of_le hw (hhead a h)
        simp only [decide_eq_true_eq, not_and, not_le]
        intro _
        exact this
      rw [hz, zero_add]
      exact le_trans (windowCount_le_length rl.calls w) hlen
    · push_neg at hw
      have hwc : windowCount (prune rl.calls t) w = windowCount rl.calls w :=
        windowCount_prune rl.calls t w hw
      by_cases hfull : (prune rl.calls t).length ≥ rl.max_calls
      · -- denied: the state keeps exactly the pruned residents.
        have hstep : admittedTimes rl (t :: ts)
            = admittedTimes { rl with calls := prune rl.calls t } ts := by
          simp [admittedTimes, can_proceed, hfull]
        rw [hstep, ← hwc]
        apply ih
        · exact hsort'
        · intro c hc t' ht'
          exact hle c (mem_prune_subset rl.calls t c hc) t'
            (List.mem_cons_of_mem _ ht')
        · exact le_trans (prune_length_le rl.calls t) hlen
      · -- admitted: `t` is appended to the pruned residents.
        push_neg at hfull
        have hstep : admittedTimes rl (t :: ts)
            = t :: admittedTimes { rl with calls := prune rl.calls t ++ [t] } ts := by
          simp [admittedTimes, can_proceed, hfull.not_le]
        rw [hstep, windowCount_cons]
        have hrec := ih { rl with calls := prune rl.calls t ++ [t] } w hsort'
          (by
            intro c hc t' ht'
            rcases List.mem_append.mp hc with hc | hc
            · exact hle c (mem_prune_subset rl.calls t c hc) t'
                (List.mem_cons_of_mem _ ht')
            · simp only [List.mem_singleton] at hc
              subst hc
              exact hhead t' ht')
          (by
            simpa [List.length_append] using Nat.succ_le_of_lt hfull)
        rw [windowCount_append_singleton, hwc] at hrec
        dsimp only at hrec
        omega

/-- C1: for every sequence of admission checks at nondecreasing wall-clock
times on a fresh `RateLimiter` with maximum `m`, the number of admitted calls
whose recorded timestamps fall in any trailing 60-second window never exceeds
`m`; moreover `can_proceed` admits (and appends the current timestamp) exactly
when, after dropping timestamps older than 60 seconds, fewer than `m`
timestamps remain, and a failed check appends nothing. -/
theorem c1_sliding_window_bound (m : ℕ) (ts : List ℚ) (w : ℚ)
    (hsort : List.Sorted (· ≤ ·) ts) :
    windowCount (admittedTimes ⟨m, []⟩ ts) w ≤ m ∧
    (∀ (rl : RateLimiter) (now : ℚ),
      ((can_proceed rl now).1 = true ↔
        (prune rl.calls now).length < rl.max_calls) ∧
      ((can_proceed rl now).1 = true →
        (can_proceed rl now).2.calls = prune rl.calls now ++ [now]) ∧
      ((can_proceed rl now).1 = false →
        (can_proceed rl now).2.calls = prune rl.calls now)) := by
  constructor
  · have h := admitted_window_bound ts ⟨m, []⟩ w hsort
      (by intro c hc; simp at hc) (by simp)
    simpa [windowCount, List.filter_nil] using h
  · intro rl now
    unfold can_proceed
    by_cases h : (prune rl.calls now).length ≥ rl.max_calls <;>
      simp [h] <;> omega

/-- Witness for C1 at a concrete run: three checks at times 0, 1, 2 against a
maximum of 2 admit at most 2 calls into the window ending at time 2. -/
theorem c1_sliding_window_bound_witness :
    windowCount (admittedTimes ⟨2, []⟩ [(0 : ℚ), 1, 2]) 2 ≤ 2 :=
  (c1_sliding_window_bound 2 [(0 : ℚ), 1, 2] 2
    (by norm_num [List.sorted_cons])).1

/-! ## Pipeline data model (`agent/states.py`)

Pydantic models, carried verbatim as structures. -/

/-- `states.File`: one planned file. -/
structure PlanFile where
  path : String
  purpose : String
deriving DecidableEq

/-- `states.Plan`: the structured project plan. -/
structure Plan where
  name : String
  description : String
  techstack : String
  features : List String
  files : List PlanFile
  dependencies : List String
deriving DecidableEq

/-- `states.ImplementationTask`: one file-generation task. -/
structure ImplementationTask where
  filepath : String
  task_description : String
deriving DecidableEq

/-- `states.TaskPlan`: the ordered implementation tasks. -/
structure TaskPlan where
  implementation_steps : List ImplementationTask
deriving DecidableEq

/-- `states.CoderState`: the coding stage's cursor. -/
structure CoderState where
  task_plan : TaskPlan
  current_step_idx : ℕ
  current_file_content : Option String := none
  retry_attempts : ℕ := 0
deriving DecidableEq

/-- The `status` strings written into the pipeline state by the agents of
`agent/graph.py`. -/
inductive Status where
  | CODING_DONE
  | CODING_IN_PROGRESS
  | CODING_RETRY
  | SECURITY_PASSED
  | SECURITY_NEEDS_FIX
  | SECURITY_FAILED
  | SECURITY_FIXED
  | VERIFICATION_COMPLETE
deriving DecidableEq

/-- An exception raised inside `coder_agent`'s `try` block, abstracted by the
two features the handler extracts from `str(e)`: the provider-supplied retry
delay captured by the regex on `retry_delay { seconds: N }`, and whether the
message contains `"429"` or `"ResourceExhausted"`. -/
structure PyErr where
  retryDelay : Option ℕ
  isQuota : Bool
deriving DecidableEq

/-! ## Coding stage (`graph.py::coder_agent`) -/

/-- The backoff computation of `coder_agent`'s `except` branch, applied after
`retry_attempts` has been incremented (`ra` is the incremented value): a
provider-supplied delay plus 2 seconds when present; else exponential backoff
`min(5 * 2^(ra-1), 120)` for quota exhaustion; else a fixed 5 seconds. -/
def backoffWait (ra : ℕ) (e : PyErr) : ℕ :=
  match e.retryDelay with
  | some d => d + 2
  | none => if e.isQuota then min (5 * 2 ^ (ra - 1)) 120 else 5

/-- The code-fence stripping applied to `response.content.strip()` before the
generated text is written. -/
def strip_code_fences (raw : String) : String :=
  let content := raw.trim
  if content.startsWith "\x60\x60\x60" then
    let lines := content.splitOn "\n"
    let lines1 :=
      if (lines.headD "").startsWith "\x60\x60\x60" then lines.drop 1 else lines
    let lines2 :=
      if lines1 ≠ [] ∧ (lines1.getLastD "").startsWith "\x60\x60\x60" then
        lines1.dropLast
      else lines1
    String.intercalate "\n" lines2
  else content

/-- What one `coder_agent` invocation writes back into the pipeline state:
the threaded `coder_state`, the `status` tag, the backoff it slept before a
retry (if any), and the content it persisted (if any). -/
structure CoderResult where
  coder_state : CoderState
  status : Status
  slept : Option ℕ
  written : Option String
deriving DecidableEq

/-- `graph.py::coder_agent`.  The two opaque effects of the `try` block are
explicit inputs: `gen` is the outcome of `llm.invoke(prompt)` (the raw
content, or the exception), `wr` the outcome of `write_file.invoke` (which can
itself raise).  A `ValueError` raised by the agent is an `Except.error`. -/
def coder_agent (cs? : Option CoderState) (tp? : Option TaskPlan)
    (gen : Except PyErr String) (wr : Except PyErr Unit) :
    Except String CoderResult :=
  match
    (match cs? with
     | some cs => Except.ok cs
     | none =>
       match tp? with
       | none => Except.error
           "No task_plan found in state. Architect agent did not run or failed."
       | some tp => Except.ok ⟨tp, 0, none, 0⟩ : Except String CoderState)
  with
  | Except.error m => Except.error m
  | Except.ok cs =>
    let steps := cs.task_plan.implementation_steps
    if steps.length = 0 then
      Except.error
        "Task plan is empty. Architect agent did not supply implementation steps."
    else if cs.current_step_idx ≥ steps.length then
      Except.ok ⟨cs, Status.CODING_DONE, none, none⟩
    else
      match gen with
      | Except.error e =>
        let cs' := { cs with retry_attempts := cs.retry_attempts + 1 }
        Except.ok ⟨cs', Status.CODING_RETRY,
          some (backoffWait cs'.retry_attempts e), none⟩
      | Except.ok content =>
        let code_content := strip_code_fences content
        match wr with
        | Except.error e =>
          let cs' := { cs with retry_attempts := cs.retry_attempts + 1 }
          Except.ok ⟨cs', Status.CODING_RETRY,
            some (backoffWait cs'.retry_attempts e), none⟩
        | Except.ok _ =>
          let cs' := { cs with
            retry_attempts := 0
            current_step_idx := cs.current_step_idx + 1 }
          if cs'.current_step_idx ≥ steps.length then
            Except.ok ⟨cs', Status.CODING_DONE, none, some code_content⟩
          else
            Except.ok ⟨cs', Status.CODING_IN_PROGRESS, none, some code_content⟩

/-- The fresh cursor `CoderState(task_plan=task_plan, current_step_idx=0)`
built on the coder's first invocation. -/
def freshCoder (tp : TaskPlan) : CoderState := ⟨tp, 0, none, 0⟩

/-- One environment for a coder invocation: the generation outcome and the
write outcome. -/
structure CoderEnv where
  gen : Except PyErr String
  wr : Except PyErr Unit

/-- Re-invoking the coder node on its self-loop, threading `coder_state`; a
raised error aborts the run, ending the trace. -/
def coderRunTrace (cs : CoderState) : List CoderEnv → List CoderResult
  | [] => []
  | env :: envs =>
    match coder_agent (some cs) none env.gen env.wr with
    | Except.error _ => []
    | Except.ok r => r :: coderRunTrace r.coder_state envs

/-! ## Planning and architecture stages (`graph.py`) -/

/-- `graph.py::planner_agent`, with the structured-output call's result as an
explicit input (`none` models `llm.with_structured_output(Plan)` returning
`None`).  A raised `ValueError` is an `Except.error`; on success the agent
stores the plan. -/
def planner_agent (resp? : Option Plan) : Except String Plan :=
  match resp? with
  | none => Except.error "Planner did not return a valid response."
  | some resp =>
    if resp.files.length = 0 then
      Except.error "Planner returned a plan with no files"
    else Except.ok resp

/-- `graph.py::architect_agent`, with the structured-output call's result as
an explicit input.  When the plan is missing the agent raises; when the
generator returns `None` the debug print's attribute access raises; otherwise
the task plan is stored as-is — the agent performs no further validation. -/
def architect_agent (plan? : Option Plan) (resp? : Option TaskPlan) :
    Except String TaskPlan :=
  match plan? with
  | none => Except.error "No plan found in state"
  | some _ =>
    match resp? with
    | none => Except.error
        "AttributeError: NoneType object has no attribute implementation_steps"
    | some resp => Except.ok resp

/-! ## Security stages (`graph.py`) -/

/-- `graph.py::security_agent`, reduced to the fields that drive routing:
`scanPassed` is `scan_project_security()['passed']`, `attempts0` the incoming
`security_attempts` (defaulting to 0).  Returns the written `status` and the
written `security_attempts`.  The LLM validation call only shapes the issue
list, never the routing, and is omitted. -/
def security_agent (scanPassed : Bool) (attempts0 : ℕ) : Status × ℕ :=
  if scanPassed then (Status.SECURITY_PASSED, attempts0)
  else
    let security_attempts := attempts0 + 1
    if security_attempts ≥ 1 then (Status.SECURITY_NEEDS_FIX, security_attempts)
    else (Status.SECURITY_FAILED, security_attempts)

/-- `graph.py::security_fixer_agent`, reduced to its `status` output:
`hasIssues` is whether `security_validation` is present with a non-empty issue
list.  Individual fix errors are swallowed by `continue` and do not change
the outcome. -/
def security_fixer_agent (hasIssues : Bool) : Status :=
  if hasIssues then Status.SECURITY_FIXED else Status.SECURITY_PASSED

/-! ## Stage graph and routing (`graph.py`, graph wiring) -/

/-- The nodes of the compiled state graph (`terminal` is langgraph's `END`). -/
inductive Node where
  | planner
  | architect
  | coder
  | security
  | security_fixer
  | final_verification
  | terminal
deriving DecidableEq

/-- The conditional edge out of `coder`:
`lambda s: "security" if s.get("status") == "CODING_DONE" else "coder"`. -/
def route_from_coder (st : Status) : Node :=
  if st = Status.CODING_DONE then Node.security else Node.coder

/-- `graph.py::route_from_security`. -/
def route_from_security (st : Status) : Node :=
  if st = Status.SECURITY_PASSED then Node.final_verification
  else if st = Status.SECURITY_NEEDS_FIX then Node.security_fixer
  else Node.final_verification

/-- The successor of each node given the `status` its handler just wrote:
the unconditional edges `planner → architect`, `architect → coder`,
`security_fixer → final_verification` and the conditional edges above. -/
def nextNode (n : Node) (st : Status) : Node :=
  match n with
  | Node.planner => Node.architect
  | Node.architect => Node.coder
  | Node.coder => route_from_coder st
  | Node.security => route_from_security st
  | Node.security_fixer => Node.final_verification
  | Node.final_verification => Node.terminal
  | Node.terminal => Node.terminal

/-- The routing-relevant slice of the pipeline state threaded through the
audit segment: the last written `status`, the `security_attempts` counter,
and how many scans have run (to index the scan outcomes). -/
structure SecState where
  status : Status
  security_attempts : ℕ
  scanIdx : ℕ
deriving DecidableEq

/-- Executes one node of the audit segment on the routing-relevant state:
`scans k` is the outcome of the (k+1)-th `scan_project_security()` call,
`hasIssues` whether the validation handed to the fixer carries issues. -/
def execNode (scans : ℕ → Bool) (hasIssues : Bool) (n : Node) (s : SecState) :
    SecState :=
  match n with
  | Node.security =>
    let r := security_agent (scans s.scanIdx) s.security_attempts
    ⟨r.1, r.2, s.scanIdx + 1⟩
  | Node.security_fixer =>
    ⟨security_fixer_agent hasIssues, s.security_attempts, s.scanIdx⟩
  | Node.final_verification =>
    ⟨Status.VERIFICATION_COMPLETE, s.security_attempts, s.scanIdx⟩
  | _ => s

/-- Runs the engine from node `n`, following `nextNode` until `terminal` (or
the fuel runs out), returning the visited nodes and the final state. -/
def engineTrace (scans : ℕ → Bool) (hasIssues : Bool) :
    ℕ → Node → SecState → List Node × SecState
  | 0, _, s => ([], s)
  | fuel + 1, n, s =>
    if n = Node.terminal then ([], s)
    else
      let s' := execNode scans hasIssues n s
      let r := engineTrace scans hasIssues fuel (nextNode n s'.status) s'
      (n :: r.1, r.2)

/-! ## Sandboxed file persistence (`agent/tools.py`)

A resolved absolute path is its list of components below the filesystem
root.  A path argument is its components plus whether it was absolute
(`pathlib`'s `/` operator discards the left operand for an absolute right
operand).  `Path.resolve` normalises `.` and `..` (symlinks are out of
scope); `..` above the filesystem root stays at the root. -/

/-- A path argument as `pathlib` parses it. -/
structure PyPath where
  absolute : Bool
  parts : List String
deriving DecidableEq

/-- `Path.resolve`'s lexical normalisation over anchored components. -/
def resolveParts : List String → List String → List String
  | acc, [] => acc
  | acc, c :: rest =>
    if c = "." ∨ c = "" then resolveParts acc rest
    else if c = ".." then resolveParts acc.dropLast rest
    else resolveParts (acc ++ [c]) rest

/-- `(PROJECT_ROOT / path).resolve()`: an absolute argument replaces the
root, a relative one is appended, then the result is normalised. -/
def resolvedJoin (root : List String) (arg : PyPath) : List String :=
  if arg.absolute then resolveParts [] arg.parts
  else resolveParts [] (root ++ arg.parts)

/-- `pathlib`'s `p.parents`: every proper ancestor of `p`, i.e. every proper
component-list pre-segment. -/
def parentsList (p : List String) : List (List String) :=
  (List.range p.length).map (fun k => p.take k)

/-- `pathlib`'s `p.parent` (the parent of the filesystem root is itself). -/
def parentDir (p : List String) : List String := p.dropLast

/-- `p` lies inside `root` (including `p = root`): `root` is an initial
segment of `p`'s components. -/
def insideRoot (root p : List String) : Prop := p.take root.length = root

instance (root p : List String) : Decidable (insideRoot root p) := by
  unfold insideRoot
  infer_instance

/-- `tools.py::safe_path_for_project`: resolve the argument against the
project root and raise unless the root is an ancestor of, the parent of, or
equal to the resolved path.  `root` is the already-resolved project root. -/
def safe_path_for_project (root : List String) (arg : PyPath) :
    Except String (List String) :=
  let p := resolvedJoin root arg
  if root ∉ parentsList p ∧ root ≠ parentDir p ∧ root ≠ p then
    Except.error "Attempt to write outside project root"
  else Except.ok p

/-- A file system snapshot: the contents found at each resolved path. -/
def FileSys : Type := List String → Option String

/-- `tools.py::write_file`: validate the path, then persist.  On success the
result carries the updated file system and the written path; a validation
error occurs before any file access, so the file system is untouched. -/
def write_file (fs : FileSys) (root : List String) (arg : PyPath)
    (content : String) : Except String (FileSys × List String) :=
  match safe_path_for_project root arg with
  | Except.error m => Except.error m
  | Except.ok p =>
    Except.ok (fun q => if q = p then some content else fs q, p)

/-- `tools.py::read_file`: validate the path, then read; a missing file reads
as the empty string. -/
def read_file (fs : FileSys) (root : List String) (arg : PyPath) :
    Except String String :=
  match safe_path_for_project root arg with
  | Except.error m => Except.error m
  | Except.ok p =>
    match fs p with
    | none => Except.ok ""
    | some content => Except.ok content

/-! ## Security scanner (`agent/tools.py`) -/

/-- One entry of `scan_file_security`'s issue list. -/
structure Finding where
  file : String
  category : String
  line : ℕ
  issue : String
  severity : String
deriving DecidableEq

/-- `tools.py::scan_file_security`: the whole body sits in a
`try/except Exception: pass` that returns the issues gathered so far, so a
file whose read raises yields no findings.  The two regex rule families over
the file's text are abstracted as `matcher` (pure, applied to the text the
read produced). -/
def scan_file_security (matcher : String → List Finding)
    (readResult : Except String String) : List Finding :=
  match readResult with
  | Except.error _ => []
  | Except.ok content => matcher content

/-- The extension allow-list of `scan_project_security`. -/
def scanExtensions : List String :=
  [".py", ".js", ".ts", ".jsx", ".tsx", ".java", ".php", ".rb", ".go"]

/-- One file under the project root as the scanner sees it: its suffix and
what opening it yields. -/
structure ScanFile where
  suffix : String
  readResult : Except String String

/-- `scan_project_security`'s result dictionary. -/
structure ScanResult where
  issues : List Finding
  passed : Bool
  summary : String
  total_issues : ℕ

/-- `tools.py::scan_project_security`: a missing project root passes with
zero findings; otherwise every file with an allow-listed suffix is scanned
and `passed` is exactly "zero findings". -/
def scan_project_security (rootExists : Bool) (files : List ScanFile)
    (matcher : String → List Finding) : ScanResult :=
  if ¬rootExists then
    ⟨[], true, "No files to scan", 0⟩
  else
    let all_issues :=
      (files.filter (fun f => decide (f.suffix ∈ scanExtensions))).flatMap
        (fun f => scan_file_security matcher f.readResult)
    let passed := all_issues.length = 0
    ⟨all_issues, passed,
      if passed then "Security scan passed. No issues detected"
      else "Found security issues",
      all_issues.length⟩

/-! ## Claim theorems for the pipeline stages -/

/-- C2: starting from a failing security scan with no prior remediation
attempt, the engine visits the security fixer exactly once and then
unconditionally reaches final verification — the fixer's only outgoing edge
is `final_verification`, whatever status it wrote — and `security_attempts`
equals 1 from the scan on.  The scan outcomes are pinned to "always failing",
so residual findings after the fix change nothing. -/
theorem c2_single_remediation_pass (hasIssues : Bool) :
    (engineTrace (fun _ => false) hasIssues 10 Node.security
        ⟨Status.CODING_DONE, 0, 0⟩).1
      = [Node.security, Node.security_fixer, Node.final_verification] ∧
    (engineTrace (fun _ => false) hasIssues 10 Node.security
        ⟨Status.CODING_DONE, 0, 0⟩).2.security_attempts = 1 ∧
    (engineTrace (fun _ => false) hasIssues 10 Node.security
        ⟨Status.CODING_DONE, 0, 0⟩).1.count Node.security_fixer = 1 ∧
    (∀ st : Status, nextNode Node.security_fixer st = Node.final_verification) := by
  cases hasIssues <;> exact ⟨rfl, rfl, rfl, fun _ => rfl⟩

/-- C3: a coder invocation with a cursor strictly below the task count ends
in exactly one of two outcomes.  Success (generation and persistence both
succeed): the cursor advances by one, the retry counter resets to 0, and the
status is `CODING_DONE` exactly when the new cursor equals the task count,
`CODING_IN_PROGRESS` otherwise.  Transient failure (either call raises): the
cursor is unchanged, the retry counter is incremented, the status is
`CODING_RETRY`, and the conditional edge re-enters the coder node. -/
theorem c3_coder_step_dichotomy (cs : CoderState) (tp? : Option TaskPlan)
    (gen : Except PyErr String) (wr : Except PyErr Unit)
    (hne : cs.task_plan.implementation_steps ≠ [])
    (hlt : cs.current_step_idx < cs.task_plan.implementation_steps.length) :
    ∃ r : CoderResult, coder_agent (some cs) tp? gen wr = Except.ok r ∧
      (∀ c : String, gen = Except.ok c → wr = Except.ok () →
        r.coder_state.current_step_idx = cs.current_step_idx + 1 ∧
        r.coder_state.retry_attempts = 0 ∧
        (r.status = Status.CODING_DONE ↔
          r.coder_state.current_step_idx
            = cs.task_plan.implementation_steps.length) ∧
        (r.status = Status.CODING_DONE ∨
          r.status = Status.CODING_IN_PROGRESS)) ∧
      (∀ e : PyErr,
        (gen = Except.error e ∨ (∃ c, gen = Except.ok c ∧ wr = Except.error e)) →
        r.coder_state.current_step_idx = cs.current_step_idx ∧
        r.coder_state.retry_attempts = cs.retry_attempts + 1 ∧
        r.status = Status.CODING_RETRY ∧
        route_from_coder r.status = Node.coder) := by
  have hne0 : ¬ cs.task_plan.implementation_steps.length = 0 := by
    simpa using List.length_pos.mpr hne |>.ne'
  have hnge : ¬ cs.current_step_idx ≥ cs.task_plan.implementation_steps.length :=
    Nat.not_le.mpr hlt
  cases gen with
  | error e =>
    refine ⟨⟨{ cs with retry_attempts := cs.retry_attempts + 1 },
      Status.CODING_RETRY, some (backoffWait (cs.retry_attempts + 1) e), none⟩,
      ?_, ?_, ?_⟩
    · simp [coder_agent, hne0, hnge]
    · intro c hc
      exact absurd hc (by simp)
    · rintro e' (he' | ⟨c, hc, _⟩)
      · cases he'
        exact ⟨rfl, rfl, rfl, rfl⟩
      · exact absurd hc (by simp)
  | ok c =>
    cases wr with
    | error e =>
      refine ⟨⟨{ cs with retry_attempts := cs.retry_attempts + 1 },
        Status.CODING_RETRY, some (backoffWait (cs.retry_attempts + 1) e), none⟩,
        ?_, ?_, ?_⟩
      · simp [coder_agent, hne0, hnge]
      · intro c' _ hw
        exact absurd hw (by simp)
      · rintro e' (he' | ⟨c', _, hw⟩)
        · exact absurd he' (by simp)
        · cases hw
          exact ⟨rfl, rfl, rfl, rfl⟩
    | ok u =>
      cases u
      by_cases hdone :
          cs.current_step_idx + 1 ≥ cs.task_plan.implementation_steps.length
      · refine ⟨⟨⟨cs.task_plan, cs.current_step_idx + 1,
            cs.current_file_content, 0⟩,
          Status.CODING_DONE, none, some (strip_code_fences c)⟩, ?_, ?_, ?_⟩
        · simp [coder_agent, hne0, hnge, hdone]
        · intro c' _ _
          refine ⟨rfl, rfl, ?_, Or.inl rfl⟩
          constructor
          · intro _
            dsimp only
            omega
          · intro _
            rfl
        · rintro e' (he' | ⟨c', _, hw⟩)
          · exact absurd he' (by simp)
          · exact absurd hw (by simp)
      · refine ⟨⟨⟨cs.task_plan, cs.current_step_idx + 1,
            cs.current_file_content, 0⟩,
          Status.CODING_IN_PROGRESS, none, some (strip_code_fences c)⟩, ?_, ?_, ?_⟩
        · simp [coder_agent, hne0, hnge, hdone]
        · intro c' _ _
          refine ⟨rfl, rfl, ?_, Or.inr rfl⟩
          constructor
          · intro h
            exact absurd h (by simp)
          · intro h
            dsimp only at h
            omega
        · rintro e' (he' | ⟨c', _, hw⟩)
          · exact absurd he' (by simp)
          · exact absurd hw (by simp)

/-- Witness for C3 at a concrete input: one pending task, both calls succeed,
so the cursor advances to 1, the retry counter is 0 and the stage reports
done. -/
theorem c3_coder_step_dichotomy_witness :
    ∃ r : CoderResult,
      coder_agent (some (freshCoder ⟨[⟨"app.py", "implement main"⟩]⟩)) none
        (Except.ok "x = 1") (Except.ok ()) = Except.ok r ∧
      r.coder_state.current_step_idx = 1 ∧
      r.coder_state.retry_attempts = 0 ∧
      r.status = Status.CODING_DONE := by
  obtain ⟨r, hr, hsucc, -⟩ :=
    c3_coder_step_dichotomy (freshCoder ⟨[⟨"app.py", "implement main"⟩]⟩) none
      (Except.ok "x = 1") (Except.ok ()) (by decide) (by decide)
  obtain ⟨h1, h2, h3, -⟩ := hsucc "x = 1" rfl rfl
  exact ⟨r, hr, h1, h2, h3.mpr h1⟩

/-- C4: the retry wait is the provider-supplied delay plus 2 seconds when one
is present; otherwise `min(5 * 2^(retryCount−1), 120)` for quota exhaustion —
5, 10, 20, 40 seconds at retryCount 1, 2, 3, 4 and 120 for any retryCount of
6 or more; otherwise a fixed 5 seconds. -/
theorem c4_backoff_schedule (ra : ℕ) (e : PyErr) (d : ℕ) :
    (e.retryDelay = some d → backoffWait ra e = d + 2) ∧
    (e.retryDelay = none → e.isQuota = true →
      backoffWait ra e = min (5 * 2 ^ (ra - 1)) 120) ∧
    (e.retryDelay = none → e.isQuota = false → backoffWait ra e = 5) ∧
    (e.retryDelay = none → e.isQuota = true →
      backoffWait 1 e = 5 ∧ backoffWait 2 e = 10 ∧
      backoffWait 3 e = 20 ∧ backoffWait 4 e = 40) ∧
    (6 ≤ ra → e.retryDelay = none → e.isQuota = true →
      backoffWait ra e = 120) := by
  refine ⟨?_, ?_, ?_, ?_, ?_⟩
  · intro h
    simp [backoffWait, h]
  · intro h hq
    simp [backoffWait, h, hq]
  · intro h hq
    simp [backoffWait, h, hq]
  · intro h hq
    refine ⟨?_, ?_, ?_, ?_⟩ <;> simp [backoffWait, h, hq]
  · intro hra h hq
    simp only [backoffWait, h, hq, if_true]
    have h32 : (32 : ℕ) ≤ 2 ^ (ra - 1) := by
      calc (32 : ℕ) = 2 ^ 5 := by norm_num
        _ ≤ 2 ^ (ra - 1) := Nat.pow_le_pow_right (by norm_num) (by omega)
    have : (120 : ℕ) ≤ 5 * 2 ^ (ra - 1) := by
      calc (120 : ℕ) ≤ 5 * 32 := by norm_num
        _ ≤ 5 * 2 ^ (ra - 1) := Nat.mul_le_mul_left 5 h32
    omega

/-- One coder invocation preserves the task plan, never moves the cursor
backwards, keeps it within the task count, and reports `CODING_DONE` exactly
at equality. -/
lemma coder_agent_step (cs : CoderState) (gen : Except PyErr String)
    (wr : Except PyErr Unit) (r : CoderResult)
    (h : coder_agent (some cs) none gen wr = Except.ok r) :
    r.coder_state.task_plan = cs.task_plan ∧
    cs.current_step_idx ≤ r.coder_state.current_step_idx ∧
    (cs.current_step_idx ≤ cs.task_plan.implementation_steps.length →
      r.coder_state.current_step_idx
        ≤ cs.task_plan.implementation_steps.length ∧
      (r.status = Status.CODING_DONE ↔
        r.coder_state.current_step_idx
          = cs.task_plan.implementation_steps.length)) := by
  by_cases h0 : cs.task_plan.implementation_steps.length = 0
  · simp [coder_agent, h0] at h
  by_cases hge : cs.current_step_idx ≥ cs.task_plan.implementation_steps.length
  · simp [coder_agent, h0, hge] at h
    subst h
    refine ⟨rfl, le_refl _, fun hle => ⟨hle, ?_⟩⟩
    simp only [true_iff]
    omega
  · cases gen with
    | error e =>
      simp [coder_agent, h0, hge] at h
      subst h
      refine ⟨rfl, le_refl _, fun hle => ⟨hle, ?_⟩⟩
      constructor
      · intro hst
        exact absurd hst (by simp)
      · intro heq
        first
        | omega
        | (dsimp only at heq; omega)
    | ok c =>
      cases wr with
      | error e =>
        simp [coder_agent, h0, hge] at h
        subst h
        refine ⟨rfl, le_refl _, fun hle => ⟨hle, ?_⟩⟩
        constructor
        · intro hst
          exact absurd hst (by simp)
        · intro heq
          dsimp only at heq
          omega
      | ok u =>
        cases u
        by_cases hdone :
            cs.current_step_idx + 1 ≥ cs.task_plan.implementation_steps.length
        · simp [coder_agent, h0, hge, hdone] at h
          subst h
          refine ⟨rfl, by first | omega | (dsimp only; omega), fun _ => ⟨by first | omega | (dsimp only; omega), ?_⟩⟩
          simp only [true_iff]
          first
          | omega
          | (dsimp only; omega)
        · simp [coder_agent, h0, hge, hdone] at h
          subst h
          refine ⟨rfl, by first | omega | (dsimp only; omega), fun _ => ⟨by first | omega | (dsimp only; omega), ?_⟩⟩
          constructor
          · intro hst
            exact absurd hst (by simp)
          · intro heq
            first
            | omega
            | (dsimp only at heq; omega)

/-- Invariant of the coder self-loop, threaded over any environment list. -/
lemma coderRunTrace_invariant (envs : List CoderEnv) :
    ∀ cs : CoderState,
      cs.current_step_idx ≤ cs.task_plan.implementation_steps.length →
      (∀ r ∈ coderRunTrace cs envs,
        r.coder_state.task_plan = cs.task_plan ∧
        r.coder_state.current_step_idx
          ≤ cs.task_plan.implementation_steps.length ∧
        (r.status = Status.CODING_DONE ↔
          r.coder_state.current_step_idx
            = cs.task_plan.implementation_steps.length)) ∧
      List.Chain' (· ≤ ·) (cs.current_step_idx ::
        (coderRunTrace cs envs).map (fun r => r.coder_state.current_step_idx)) := by
  induction envs with
  | nil =>
    intro cs _
    exact ⟨by simp [coderRunTrace], by simp [coderRunTrace]⟩
  | cons env envs ih =>
    intro cs hle
    cases hstep : coder_agent (some cs) none env.gen env.wr with
    | error m =>
      refine ⟨?_, ?_⟩ <;> simp [coderRunTrace, hstep]
    | ok r =>
      obtain ⟨htp, hmono, hinv⟩ := coder_agent_step cs env.gen env.wr r hstep
      obtain ⟨hbound, hdone⟩ := hinv hle
      have hle' : r.coder_state.current_step_idx
          ≤ r.coder_state.task_plan.implementation_steps.length := by
        rw [htp]
        exact hbound
      obtain ⟨ihmem, ihchain⟩ := ih r.coder_state hle'
      constructor
      · intro r' hr'
        simp only [coderRunTrace, hstep, List.mem_cons] at hr'
        rcases hr' with rfl | hr'
        · exact ⟨htp, hbound, hdone⟩
        · obtain ⟨htp', hb', hd'⟩ := ihmem r' hr'
          rw [htp] at htp' hb' hd'
          exact ⟨htp', hb', hd'⟩
      · simp only [coderRunTrace, hstep, List.map_cons]
        exact List.Chain'.cons hmono ihchain

/-- C5: starting from a fresh coder state, across any sequence of coder
invocations the cursor satisfies `0 ≤ current_step_idx ≤ task count`, never
decreases, and the stage reports `CODING_DONE` — the only status that routes
out of the coder self-loop — exactly when the cursor equals the task count. -/
theorem c5_cursor_invariant (tp : TaskPlan) (envs : List CoderEnv) :
    (∀ r ∈ coderRunTrace (freshCoder tp) envs,
      r.coder_state.current_step_idx ≤ tp.implementation_steps.length ∧
      (r.status = Status.CODING_DONE ↔
        r.coder_state.current_step_idx = tp.implementation_steps.length)) ∧
    List.Chain' (· ≤ ·) ((freshCoder tp).current_step_idx ::
      (coderRunTrace (freshCoder tp) envs).map
        (fun r => r.coder_state.current_step_idx)) ∧
    (∀ st : Status,
      st = Status.CODING_DONE ↔ route_from_coder st = Node.security) := by
  obtain ⟨hmem, hchain⟩ :=
    coderRunTrace_invariant envs (freshCoder tp) (Nat.zero_le _)
  refine ⟨fun r hr => ?_, hchain, fun st => ?_⟩
  · obtain ⟨-, hb, hd⟩ := hmem r hr
    exact ⟨hb, hd⟩
  · unfold route_from_coder
    by_cases hst : st = Status.CODING_DONE <;> simp [hst]

/-- A plan with two files, for concrete runs. -/
def planTwoFiles : Plan :=
  ⟨"todo_app", "a todo app", "python", ["tasks"],
    [⟨"app.py", "main application logic"⟩, ⟨"util.py", "helpers"⟩], []⟩

/-- A generated task list with a single task, for concrete runs. -/
def taskPlanOneStep : TaskPlan := ⟨[⟨"app.py", "implement main"⟩]⟩

/-- C6 counterexample: the architecture stage accepts a task list of length 1
for a plan with 2 files — it returns the mismatched task plan instead of
failing the run. -/
theorem c6_counterexample :
    architect_agent (some planTwoFiles) (some taskPlanOneStep)
      = Except.ok taskPlanOneStep ∧
    taskPlanOneStep.implementation_steps.length ≠ planTwoFiles.files.length :=
  ⟨rfl, by decide⟩

/-- C6 amended: the architecture stage performs no task-count validation at
all — whatever task list the generator returns is stored as-is, for any plan;
only a missing plan or a `None` generator result raises.  An empty task list
is rejected later, fatally, on the coder stage's first run. -/
theorem c6_architect_no_count_check (p : Plan) (tp : TaskPlan) :
    architect_agent (some p) (some tp) = Except.ok tp ∧
    (tp.implementation_steps = [] →
      ∀ (gen : Except PyErr String) (wr : Except PyErr Unit),
        coder_agent none (some tp) gen wr = Except.error
          "Task plan is empty. Architect agent did not supply implementation steps.") := by
  refine ⟨rfl, fun h gen wr => ?_⟩
  simp [coder_agent, h]

/-- C7: the planning stage raises a fatal error exactly when the produced
plan contains zero files; a plan with at least one file is stored and the
unconditional `planner → architect` edge carries it to the architecture
stage. -/
theorem c7_empty_plan_fatal (p : Plan) :
    ((∃ m, planner_agent (some p) = Except.error m) ↔ p.files = []) ∧
    (p.files ≠ [] →
      planner_agent (some p) = Except.ok p ∧
      ∀ st : Status, nextNode Node.planner st = Node.architect) := by
  by_cases h : p.files.length = 0
  · have hnil : p.files = [] := List.length_eq_zero.mp h
    refine ⟨?_, fun hne => absurd hnil hne⟩
    simp [planner_agent, h, hnil]
  · have hne : p.files ≠ [] := fun hnil => h (by simp [hnil])
    refine ⟨?_, fun _ => ⟨by simp [planner_agent, h], fun _ => rfl⟩⟩
    simp [planner_agent, h, hne]

/-- An exception carrying neither a provider retry delay nor a quota
marker. -/
def errOther : PyErr := ⟨none, false⟩

/-- C8 counterexample: generation succeeds but the persistence step raises;
the coder returns normally with status `CODING_RETRY` and an incremented
retry counter (after a fixed 5 second backoff) instead of propagating the
write failure to the run's caller. -/
theorem c8_counterexample :
    coder_agent (some (freshCoder taskPlanOneStep)) none
        (Except.ok "x = 1") (Except.error errOther)
      = Except.ok ⟨⟨taskPlanOneStep, 0, none, 1⟩,
          Status.CODING_RETRY, some 5, none⟩ ∧
    (∀ m : String,
      coder_agent (some (freshCoder taskPlanOneStep)) none
        (Except.ok "x = 1") (Except.error errOther) ≠ Except.error m) := by
  refine ⟨rfl, fun m h => ?_⟩
  rw [show coder_agent (some (freshCoder taskPlanOneStep)) none
        (Except.ok "x = 1") (Except.error errOther)
      = Except.ok ⟨⟨taskPlanOneStep, 0, none, 1⟩,
          Status.CODING_RETRY, some 5, none⟩ from rfl] at h
  exact Except.noConfusion h

/-- C8 amended: a persistence failure is absorbed by the same handler as a
generation failure — the invocation returns identically to a generation
failure with the same exception (cursor unchanged, retry counter
incremented, status `CODING_RETRY`, backoff from the exception's features),
and nothing propagates to the caller. -/
theorem c8_write_failure_retried (cs : CoderState) (c : String) (e : PyErr)
    (wr' : Except PyErr Unit) :
    coder_agent (some cs) none (Except.ok c) (Except.error e)
      = coder_agent (some cs) none (Except.error e) wr' ∧
    (cs.current_step_idx < cs.task_plan.implementation_steps.length →
      coder_agent (some cs) none (Except.ok c) (Except.error e)
        = Except.ok ⟨⟨cs.task_plan, cs.current_step_idx,
            cs.current_file_content, cs.retry_attempts + 1⟩,
          Status.CODING_RETRY,
          some (backoffWait (cs.retry_attempts + 1) e), none⟩) := by
  constructor
  · by_cases h0 : cs.task_plan.implementation_steps.length = 0
    · simp [coder_agent, h0]
    by_cases hge : cs.current_step_idx ≥ cs.task_plan.implementation_steps.length
    · simp [coder_agent, h0, hge]
    · simp [coder_agent, h0, hge]
  · intro hlt
    have h0 : ¬ cs.task_plan.implementation_steps.length = 0 := by omega
    have hge : ¬ cs.current_step_idx ≥ cs.task_plan.implementation_steps.length :=
      Nat.not_le.mpr hlt
    simp [coder_agent, h0, hge]

/-- The check of `safe_path_for_project` — root among the parents, root equal
to the parent, or root equal to the path — is exactly "the resolved path lies
inside the root". -/
lemma safe_cond_iff (root p : List String) :
    (root ∈ parentsList p ∨ root = parentDir p ∨ root = p) ↔
      insideRoot root p := by
  constructor
  · rintro (hmem | hpar | rfl)
    · simp only [parentsList, List.mem_map, List.mem_range] at hmem
      obtain ⟨k, hk, rfl⟩ := hmem
      have hlen : (p.take k).length = k := by
        simp [List.length_take]
        omega
      unfold insideRoot
      rw [hlen]
    · unfold insideRoot
      rw [hpar, parentDir, List.dropLast_eq_take]
      have hlen : (p.take (p.length - 1)).length = p.length - 1 := by
        simp [List.length_take]
      rw [hlen]
    · unfold insideRoot
      exact List.take_length _
  · intro hin
    unfold insideRoot at hin
    by_cases hlen : root.length < p.length
    · refine Or.inl ?_
      simp only [parentsList, List.mem_map, List.mem_range]
      exact ⟨root.length, hlen, hin⟩
    · refine Or.inr (Or.inr ?_)
      push_neg at hlen
      rw [List.take_of_length_le hlen] at hin
      exact hin.symm

/-- C9: `write_file` and `read_file` validate the resolved path before any
file access: validation succeeds exactly when the resolved path lies inside
the project root (yielding that path), and fails — before touching the file
system — exactly when it lies outside; a successful write therefore only ever
touches a path inside the root, and any path inside the root is served
normally. -/
theorem c9_path_confinement (fs : FileSys) (root : List String) (arg : PyPath)
    (content : String) :
    (insideRoot root (resolvedJoin root arg) ↔
      safe_path_for_project root arg = Except.ok (resolvedJoin root arg)) ∧
    (¬ insideRoot root (resolvedJoin root arg) ↔
      safe_path_for_project root arg
        = Except.error "Attempt to write outside project root") ∧
    (∀ (fs' : FileSys) (p : List String),
      write_file fs root arg content = Except.ok (fs', p) →
      insideRoot root p ∧ p = resolvedJoin root arg ∧
      ∀ q, q ≠ p → fs' q = fs q) ∧
    (∀ s : String, read_file fs root arg = Except.ok s →
      insideRoot root (resolvedJoin root arg)) ∧
    (insideRoot root (resolvedJoin root arg) →
      (∃ fs' : FileSys, write_file fs root arg content
        = Except.ok (fs', resolvedJoin root arg)) ∧
      ∃ s : String, read_file fs root arg = Except.ok s) := by
  have hcond : (root ∉ parentsList (resolvedJoin root arg) ∧
      root ≠ parentDir (resolvedJoin root arg) ∧
      root ≠ resolvedJoin root arg)
      ↔ ¬ insideRoot root (resolvedJoin root arg) := by
    rw [← safe_cond_iff root (resolvedJoin root arg)]
    constructor
    · rintro ⟨h1, h2, h3⟩ (h | h | h)
      · exact h1 h
      · exact h2 h
      · exact h3 h
    · intro h
      exact ⟨fun h1 => h (Or.inl h1), fun h2 => h (Or.inr (Or.inl h2)),
        fun h3 => h (Or.inr (Or.inr h3))⟩
  by_cases hin : insideRoot root (resolvedJoin root arg)
  · have hsafe : safe_path_for_project root arg
        = Except.ok (resolvedJoin root arg) := by
      unfold safe_path_for_project
      rw [if_neg (fun hc => (hcond.mp hc) hin)]
    refine ⟨⟨fun _ => hsafe, fun _ => hin⟩,
      ⟨fun h => absurd hin h, fun h => ?_⟩, ?_, fun _ _ => hin, fun _ => ?_⟩
    · rw [hsafe] at h
      exact Except.noConfusion h
    · intro fs' p h
      simp only [write_file, hsafe, Except.ok.injEq, Prod.mk.injEq] at h
      obtain ⟨hfs, hp⟩ := h
      subst hp
      refine ⟨hin, rfl, fun q hq => ?_⟩
      rw [← hfs]
      simp [hq]
    · constructor
      · refine ⟨fun q => if q = resolvedJoin root arg then some content
          else fs q, ?_⟩
        simp [write_file, hsafe]
      · cases hfs : fs (resolvedJoin root arg) with
        | none => exact ⟨"", by simp [read_file, hsafe, hfs]⟩
        | some c => exact ⟨c, by simp [read_file, hsafe, hfs]⟩
  · have hsafe : safe_path_for_project root arg
        = Except.error "Attempt to write outside project root" := by
      unfold safe_path_for_project
      rw [if_pos (hcond.mpr hin)]
    refine ⟨⟨fun h => absurd h hin, fun h => ?_⟩, ⟨fun _ => hsafe, fun _ => hin⟩,
      ?_, ?_, fun h => absurd h hin⟩
    · rw [hsafe] at h
      exact Except.noConfusion h
    · intro fs' p h
      unfold write_file at h
      rw [hsafe] at h
      exact Except.noConfusion h
    · intro s h
      unfold read_file at h
      rw [hsafe] at h
      exact Except.noConfusion h

/-- C10: the security scan never fails on unreadable input — a missing
project root reports `passed` with zero findings, a file whose read raises
contributes zero findings, and a project whose files are all unreadable still
reports `passed`, whatever the matching rules would have found. -/
theorem c10_scan_error_tolerance (matcher : String → List Finding)
    (e : String) (files : List ScanFile)
    (unreadable : List (String × String)) :
    (scan_project_security false files matcher).passed = true ∧
    (scan_project_security false files matcher).issues = [] ∧
    scan_file_security matcher (Except.error e) = [] ∧
    (scan_project_security true
        (unreadable.map (fun u => ⟨u.1, Except.error u.2⟩)) matcher).passed
      = true := by
  refine ⟨rfl, rfl, rfl, ?_⟩
  unfold scan_project_security
  simp only [not_true_eq_false, if_false]
  have hnil : ((unreadable.map
        (fun u => (⟨u.1, Except.error u.2⟩ : ScanFile))).filter
          (fun f => decide (f.suffix ∈ scanExtensions))).flatMap
      (fun f => scan_file_security matcher f.readResult) = [] := by
    induction unreadable with
    | nil => rfl
    | cons u us ih =>
      simp only [List.map_cons, List.filter_cons]
      by_cases hs : (⟨u.1, Except.error u.2⟩ : ScanFile).suffix ∈ scanExtensions
      · simpa [hs, scan_file_security] using ih
      · simpa [hs] using ih
  simp [hnil]

end DoPilot
